import Mathlib

/-!
Verification of the tablet-server core of the tera repository.

This file shallowly embeds the parts of the C++ source that the claims
C1..C10 are about:

* `db/db_impl.cc` — the LSM engine: `DBImpl::Get`, the compaction walk of
  `DBImpl::HandleCompactionWork`, `DBImpl::CompactMemTable`,
  `DBImpl::MakeRoomForWrite`, `DBImpl::BackgroundCall` /
  `DBImpl::MaybeScheduleCompaction` / `DBImpl::ShouldForceUnloadOnError`,
  and the snapshot multiset (`GetSnapshot` / `ReleaseSnapshot` /
  `smallest_snapshot`).
* `util/block_cache.cc` — the persistent block cache:
  `BlockCacheImpl::DeleteFile`, `BlockCacheEnv::DeleteFile`, and
  `BlockCacheRandomAccessFile::Read`.
* `tabletnode/tabletnode_impl.cc` — `TabletNodeImpl::LoadTablet` and
  `TabletNodeImpl::PersistentCacheGarbageCollect`.

Pure functions are translated into Lean functions; stateful code becomes
explicit state passing.  Statuses of environment operations (DFS reads,
table builds, MANIFEST applies, ...) enter the model as explicit inputs.
Code of the repository that is not in the provided sources (the memtable
and version lookup internals, `RollbackDrop`) is modelled from the
specification; such definitions are marked `Modelled from the spec:`.
-/

namespace Tera

/-- Outcome of an environment or I/O operation, mirroring `leveldb::Status`
codes that the embedded code inspects (`ok()`, `IsIOPermissionDenied()`). -/
inductive Status where
  | ok : Status
  | notFound : Status
  | corruption : Status
  | ioError : Status
  | ioPermissionDenied : Status
deriving DecidableEq, Repr

/-- `Status::ok()`. -/
def Status.isOk : Status → Bool
  | .ok => true
  | _ => false

/-- `Status::IsIOPermissionDenied()`. -/
def Status.isIOPermissionDenied : Status → Bool
  | .ioPermissionDenied => true
  | _ => false

/-- `leveldb::kMaxSequenceNumber = ((0x1ull << 56) - 1)`: the sentinel
sequence number.  `ReadOptions::snapshot` defaults to it, meaning "no
snapshot supplied". -/
def kMaxSequenceNumber : Nat := 2 ^ 56 - 1

/-! ## C9 — snapshot multiset (`db_impl.cc`)

`DBImpl::snapshots_` is a `std::multiset<uint64_t>`, i.e. an ordered
multiset; we embed it as a sorted `List Nat`.  `GetSnapshot` (line 1777)
inserts, `ReleaseSnapshot` (line 1791) finds one occurrence and erases it,
and both `DBImpl::WriteLevel0Table` (line 746) and
`DBImpl::ParallelCompaction` (line 1258) compute
`snapshots_.empty() ? kMaxSequenceNumber : *(snapshots_.begin())`. -/

/-- `DBImpl::GetSnapshot(last_sequence)`: `snapshots_.insert(last_sequence);
return last_sequence;`.  Ordered insertion keeps the list sorted, as
`std::multiset` does. -/
def getSnapshot (snapshots : List Nat) (lastSequence : Nat) : List Nat × Nat :=
  (snapshots.orderedInsert (· ≤ ·) lastSequence, lastSequence)

/-- `DBImpl::ReleaseSnapshot(sequence_number)`: `snapshots_.erase(
snapshots_.find(sequence_number))` — exactly one occurrence is removed. -/
def releaseSnapshot (snapshots : List Nat) (sequenceNumber : Nat) : List Nat :=
  snapshots.erase sequenceNumber

/-- `snapshots_.empty() ? kMaxSequenceNumber : *(snapshots_.begin())`, the
`smallest_snapshot` computation shared by `WriteLevel0Table` and
`ParallelCompaction`. -/
def smallestSnapshot (snapshots : List Nat) : Nat :=
  match snapshots with
  | [] => kMaxSequenceNumber
  | x :: _ => x

/-- C9: `GetSnapshot(seq)` inserts `seq` into the snapshots multiset and
returns `seq`; `ReleaseSnapshot(seq)` removes exactly one occurrence of
`seq`; and the `smallest_snapshot` used by memtable flush
(`WriteLevel0Table`) and compaction (`ParallelCompaction`) is the minimum
element of the multiset, or `kMaxSequenceNumber` when it is empty. -/
theorem claim_C9_snapshot_multiset (l : List Nat) (seq : Nat)
    (hsorted : l.Sorted (· ≤ ·)) (hmem : seq ∈ l) :
    (getSnapshot l seq).2 = seq ∧
    (∀ x, ((getSnapshot l seq).1).count x = l.count x + (if x = seq then 1 else 0)) ∧
    ((getSnapshot l seq).1).Sorted (· ≤ ·) ∧
    (releaseSnapshot l seq).count seq + 1 = l.count seq ∧
    (∀ y, y ≠ seq → (releaseSnapshot l seq).count y = l.count y) ∧
    smallestSnapshot [] = kMaxSequenceNumber ∧
    (∀ y ∈ l, smallestSnapshot l ≤ y) ∧
    (l ≠ [] → smallestSnapshot l ∈ l) := by
  refine ⟨rfl, ?_, ?_, ?_, ?_, rfl, ?_, ?_⟩
  · intro x
    have hperm := (List.perm_orderedInsert (· ≤ ·) seq l).count_eq x
    simp only [getSnapshot]
    rw [hperm, List.count_cons]
    by_cases hx : x = seq
    · subst hx; simp
    · have hbe : (seq == x) = false := by
        simp [Ne.symm hx]
      simp [hbe, hx]
  · exact hsorted.orderedInsert seq l
  · have h := List.count_erase seq seq l
    have hpos : 0 < List.count seq l := List.count_pos_iff.mpr hmem
    simp only [releaseSnapshot]
    rw [h, if_pos (beq_self_eq_true seq)]
    omega
  · intro y hy
    have h := List.count_erase y seq l
    have hbe : (seq == y) = false := by
      simp [Ne.symm hy]
    simp only [releaseSnapshot]
    rw [h, if_neg]
    · exact Nat.sub_zero _
    · simp [hbe]
  · intro y hy
    cases l with
    | nil => cases hy
    | cons a t =>
      simp only [smallestSnapshot]
      rcases List.mem_cons.mp hy with rfl | ht
      · exact le_refl _
      · exact List.rel_of_sorted_cons hsorted y ht
  · intro hne
    cases l with
    | nil => exact absurd rfl hne
    | cons a t => exact List.mem_cons_self a t

/-- Concrete instantiation of `claim_C9_snapshot_multiset` at the sorted
snapshot list `[3, 5, 5, 9]` and `seq = 5`. -/
theorem claim_C9_snapshot_multiset_witness :
    (getSnapshot [3, 5, 5, 9] 5).2 = 5 ∧
    ((getSnapshot [3, 5, 5, 9] 5).1).count 5 = [3, 5, 5, 9].count 5 + 1 ∧
    (releaseSnapshot [3, 5, 5, 9] 5).count 5 + 1 = [3, 5, 5, 9].count 5 ∧
    (∀ y ∈ [3, 5, 5, 9], smallestSnapshot [3, 5, 5, 9] ≤ y) := by
  have h := claim_C9_snapshot_multiset [3, 5, 5, 9] 5 (by decide)
    (by decide)
  refine ⟨h.1, ?_, h.2.2.2.1, h.2.2.2.2.2.2.1⟩
  have h2 := h.2.1 5
  simpa using h2

/-! ## C4 — `TabletNodeImpl::LoadTablet` (`tabletnode_impl.cc`, lines 396-480)

The request is rejected with `kIllegalAccess` before any side effect when
the session id is absent, the server's session id is empty, or the request
session id does not start with the server's session id
(`request->session_id().compare(0, sid.size(), sid) != 0`), and likewise
when the schema carries no locality group
(`request->schema().locality_groups_size() < 1`). -/

/-- Status codes from `proto/status_code.pb.h` that `LoadTablet` uses. -/
inductive StatusCode where
  | kTabletNodeOk : StatusCode
  | kIllegalAccess : StatusCode
  | kIOError : StatusCode
  | kTabletOnLoad : StatusCode
deriving DecidableEq, Repr

/-- Byte strings (session ids, paths, keys): modelled as lists of
characters so that prefix tests and splitting stay executable. -/
abbrev Bytes := List Char

/-- The fields of a `LoadTabletRequest` that decide the rejection path. -/
structure LoadRequest where
  hasSessionId : Bool
  sessionId : Bytes
  localityGroups : Nat
  tabletName : String
deriving Repr

/-- Tablet-server state visible to `LoadTablet`: the coordinator session id
and the tablet manager's registry (tablets keyed by name here; the key
range does not influence the rejection path under test). -/
structure ServerState where
  serverSessionId : Bytes
  tablets : List String
deriving Repr, DecidableEq

/-- `TabletNodeImpl::LoadTablet`.  The environment outcome of
`TabletIO::Load` (line 456) enters as the `loadOk` input.  On the session
or schema rejection paths the response status is `kIllegalAccess` and the
server state is returned untouched; otherwise the tablet is added to the
manager (`AddTablet`), and removed again if the *load* fails
(`RemoveTablet`, line 463). -/
def loadTablet (st : ServerState) (req : LoadRequest) (loadOk : Bool) :
    StatusCode × ServerState :=
  if !req.hasSessionId || st.serverSessionId.length = 0 ||
      !(st.serverSessionId.isPrefixOf req.sessionId) then
    (StatusCode.kIllegalAccess, st)
  else if req.localityGroups < 1 then
    (StatusCode.kIllegalAccess, st)
  else if req.tabletName ∈ st.tablets then
    (StatusCode.kTabletOnLoad, st)
  else if loadOk then
    (StatusCode.kTabletNodeOk, { st with tablets := req.tabletName :: st.tablets })
  else
    (StatusCode.kIOError, st)

/-- C4: a `LoadTablet` request whose session id is absent, or whose session
id does not start with the server's current session id, or whose schema
contains no locality groups, is answered with `kIllegalAccess` and leaves
the server state unchanged. -/
theorem claim_C4_load_tablet_session_check (st : ServerState) (req : LoadRequest)
    (loadOk : Bool)
    (hreject : req.hasSessionId = false ∨
      ¬ (st.serverSessionId.isPrefixOf req.sessionId) ∨
      req.localityGroups = 0) :
    loadTablet st req loadOk = (StatusCode.kIllegalAccess, st) := by
  rcases hreject with h | h | h
  · simp [loadTablet, h]
  · have hb : st.serverSessionId.isPrefixOf req.sessionId = false := by
      exact Bool.eq_false_iff.mpr h
    simp [loadTablet, hb]
  · by_cases h1 : req.hasSessionId = false
    · simp [loadTablet, h1]
    · simp only [Bool.not_eq_false] at h1
      by_cases h2 : st.serverSessionId.length = 0
      · simp [loadTablet, h1, h2]
      · by_cases h3 : st.serverSessionId.isPrefixOf req.sessionId = true
        · simp [loadTablet, h1, h2, h3, h]
        · have hb : st.serverSessionId.isPrefixOf req.sessionId = false :=
            Bool.eq_false_iff.mpr h3
          simp [loadTablet, h1, hb]

/-- Concrete instantiation of `claim_C4_load_tablet_session_check`: a
request carrying the stale session id "7" against a server whose session
id is "9" is rejected and the registry is untouched. -/
theorem claim_C4_load_tablet_session_check_witness :
    loadTablet ⟨['9'], ["t1"]⟩ ⟨true, ['7'], 1, "t2"⟩ true =
      (StatusCode.kIllegalAccess, ⟨['9'], ["t1"]⟩) :=
  claim_C4_load_tablet_session_check ⟨['9'], ["t1"]⟩ ⟨true, ['7'], 1, "t2"⟩ true
    (Or.inr (Or.inl (by decide)))

/-! ## C5 — background-compaction error handling (`db_impl.cc`)

`DBImpl::BackgroundCall` (lines 1106-1156) reacts to a failed
`BackgroundCompaction`: it increments `consecutive_compaction_errors_`,
stores the error into `bg_error_` when the status is
I/O-permission-denied or the counter exceeds 100000 (resetting the
counter), and sleeps `seconds_to_sleep` seconds computed by doubling up to
three times.  `DBImpl::MaybeScheduleCompaction` (lines 1038-1045) returns
without scheduling when `bg_error_.IsIOPermissionDenied()`, and
`DBImpl::ShouldForceUnloadOnError` (line 196) reports exactly
`bg_error_.IsIOPermissionDenied()`. -/

/-- `int seconds_to_sleep = 1; for (int i = 0; i < 3 && i <
consecutive_compaction_errors_ - 1; ++i) seconds_to_sleep *= 2;`
(lines 1133-1136), evaluated at the value the counter holds when the loop
runs. -/
def secondsToSleep (consecutiveCompactionErrors : Nat) : Nat :=
  (List.range 3).foldl
    (fun seconds i => if i < consecutiveCompactionErrors - 1 then seconds * 2 else seconds) 1

/-- The per-engine error state `BackgroundCall` manipulates. -/
structure BgErrorState where
  bgError : Status
  consecutiveCompactionErrors : Nat
deriving Repr, DecidableEq

/-- The error branch of `DBImpl::BackgroundCall` (lines 1118-1138), given
the non-OK status `s` of the failed background compaction.  Returns the
new error state and the seconds slept before the retry.  Note the counter
is reset *before* the sleep computation when the error is stored. -/
def backgroundCallOnError (st : BgErrorState) (s : Status) : BgErrorState × Nat :=
  let errs := st.consecutiveCompactionErrors + 1
  if s.isIOPermissionDenied || decide (100000 < errs) then
    ({ bgError := s, consecutiveCompactionErrors := 0 }, secondsToSleep 0)
  else
    ({ st with consecutiveCompactionErrors := errs }, secondsToSleep errs)

/-- The guard of `DBImpl::MaybeScheduleCompaction` (lines 1040-1045):
whether the function proceeds to examine compaction scores and schedule
tasks at all. -/
def maybeScheduleCompactionProceeds (shuttingDown : Bool) (bgError : Status) : Bool :=
  if shuttingDown then false
  else if bgError.isIOPermissionDenied then false
  else true

/-- `DBImpl::ShouldForceUnloadOnError` (lines 196-199). -/
def shouldForceUnloadOnError (bgError : Status) : Bool :=
  bgError.isIOPermissionDenied

/-- Closed form of the backoff loop: double per additional error, at most
three times. -/
theorem secondsToSleep_eq (n : Nat) : secondsToSleep n = 2 ^ (min 3 (n - 1)) := by
  rcases n with _ | _ | _ | _ | m
  · decide
  · decide
  · decide
  · decide
  · show secondsToSleep (m + 4) = 2 ^ (min 3 (m + 3))
    have h3 : min 3 (m + 3) = 3 := by omega
    rw [h3]
    show (List.range 3).foldl
      (fun seconds i => if i < m + 4 - 1 then seconds * 2 else seconds) 1 = 2 ^ 3
    have hr : List.range 3 = [0, 1, 2] := rfl
    rw [hr]
    simp only [List.foldl]
    rw [if_pos (by omega), if_pos (by omega), if_pos (by omega)]
    norm_num

/-- C5, counterexample: when the 100001st consecutive error is a plain
`IOError`, the error *is* stored (the count exceeded the large bound), yet
compaction scheduling still proceeds and the engine does not report itself
for force-unload — refuting the claim that exceeding the bound stops
scheduling and triggers force-unload. -/
theorem claim_C5_counterexample :
    (backgroundCallOnError ⟨Status.ok, 100000⟩ Status.ioError).1.bgError = Status.ioError ∧
    maybeScheduleCompactionProceeds false
      (backgroundCallOnError ⟨Status.ok, 100000⟩ Status.ioError).1.bgError = true ∧
    shouldForceUnloadOnError
      (backgroundCallOnError ⟨Status.ok, 100000⟩ Status.ioError).1.bgError = false := by
  refine ⟨rfl, rfl, rfl⟩

/-- C5, amended: the sleep before the next retry starts at 1 second and
doubles per additional consecutive error, capped at 8 seconds; the
background error is stored exactly when the status is
I/O-permission-denied or the error count exceeds 100000; and the engine
stops scheduling compactions and reports itself for force-unload exactly
when the *stored* error is an I/O-permission-denied status (merely
exceeding the bound with another error kind does neither). -/
theorem claim_C5_backoff_and_force_unload (n : Nat) (st : BgErrorState) (s e : Status)
    (hn : 1 ≤ n) :
    secondsToSleep 1 = 1 ∧
    secondsToSleep (n + 1) = min (2 * secondsToSleep n) 8 ∧
    secondsToSleep n ≤ 8 ∧
    ((backgroundCallOnError st s).1.bgError =
      if s.isIOPermissionDenied ∨ 100000 < st.consecutiveCompactionErrors + 1 then s
      else st.bgError) ∧
    maybeScheduleCompactionProceeds false e = !(e.isIOPermissionDenied) ∧
    shouldForceUnloadOnError e = e.isIOPermissionDenied := by
  refine ⟨rfl, ?_, ?_, ?_, ?_, rfl⟩
  · rw [secondsToSleep_eq, secondsToSleep_eq]
    rcases n with _ | _ | _ | m
    · omega
    · decide
    · decide
    · have h1 : min 3 (m + 3 + 1 - 1) = 3 := by omega
      have h2 : min 3 (m + 3 - 1) = min 3 (m + 2) := by omega
      rw [h1, h2]
      rcases m with _ | k
      · decide
      · have h4 : min 3 (k + 1 + 2) = 3 := by omega
        rw [h4]
        norm_num
  · rw [secondsToSleep_eq]
    calc 2 ^ (min 3 (n - 1)) ≤ 2 ^ 3 :=
          Nat.pow_le_pow_right (by omega) (by omega)
    _ = 8 := rfl
  · simp only [backgroundCallOnError]
    by_cases hp : s.isIOPermissionDenied = true
    · simp [hp]
    · have hp' : s.isIOPermissionDenied = false := by
        exact Bool.eq_false_iff.mpr hp
      by_cases hb : 100000 < st.consecutiveCompactionErrors + 1
      · simp [hp', hb]
      · simp [hp', hb]
  · cases e <;> rfl

/-- Concrete instantiation of `claim_C5_backoff_and_force_unload` at the
fourth consecutive error: the sleep saturates at 8 seconds, and a stored
permission-denied error stops scheduling and triggers force-unload. -/
theorem claim_C5_backoff_and_force_unload_witness :
    secondsToSleep 5 = min (2 * secondsToSleep 4) 8 ∧
    secondsToSleep 4 ≤ 8 ∧
    maybeScheduleCompactionProceeds false Status.ioPermissionDenied = false ∧
    shouldForceUnloadOnError Status.ioPermissionDenied = true := by
  have h := claim_C5_backoff_and_force_unload 4 ⟨Status.ok, 0⟩ Status.ok
    Status.ioPermissionDenied (by omega)
  exact ⟨h.2.1, h.2.2.1, h.2.2.2.2.1, h.2.2.2.2.2⟩

/-! ## C6 — `DBImpl::MakeRoomForWrite` (`db_impl.cc`, lines 1890-1936)

The loop body examines, in order: a stored background error (yield it),
the 1 ms slowdown delay (`allow_delay && NumLevelFiles(0) >=
kL0_SlowdownWritesTrigger`, after which `allow_delay = false` — "Do not
delay a single write more than once"), shutdown, room in the mutable
memtable, a still-flushing immutable memtable (wait on `bg_cv_`), the
level-0 stop trigger (wait on `bg_cv_`), and otherwise the memtable
switch (which also sets `force = false`).  We embed one call as a run over
the sequence of engine states the loop observes at each iteration (the
state may change while the mutex is dropped during sleeps and waits). -/

/-- What one iteration of the `MakeRoomForWrite` loop does. -/
inductive StallAction where
  | yieldError : StallAction
  | delayMs : StallAction
  | breakOk : StallAction
  | waitImm : StallAction
  | waitL0 : StallAction
  | switchMem : StallAction
deriving DecidableEq, Repr

/-- The configuration constants consulted by the loop
(`config::kL0_SlowdownWritesTrigger`, `config::kL0_StopWritesTrigger`,
`options_.write_buffer_size`). -/
structure StallConfig where
  slowdownTrigger : Nat
  stopTrigger : Nat
  writeBufferSize : Nat
deriving Repr

/-- The engine state one loop iteration observes: `bg_error_.ok()`,
`versions_->NumLevelFiles(0)`, `shutting_down_`,
`mem_->ApproximateMemoryUsage()`, and `imm_ != NULL`. -/
structure StallEnv where
  bgErrorOk : Bool
  l0Files : Nat
  shuttingDown : Bool
  memUsage : Nat
  immPresent : Bool
deriving Repr

/-- One iteration of the `MakeRoomForWrite` loop (the branch cascade at
lines 1896-1933). -/
def makeRoomStep (cfg : StallConfig) (allowDelay force : Bool) (e : StallEnv) : StallAction :=
  if !e.bgErrorOk then .yieldError
  else if allowDelay && decide (cfg.slowdownTrigger ≤ e.l0Files) then .delayMs
  else if e.shuttingDown then .breakOk
  else if !force && decide (e.memUsage ≤ cfg.writeBufferSize) then .breakOk
  else if e.immPresent then .waitImm
  else if decide (cfg.stopTrigger ≤ e.l0Files) then .waitL0
  else .switchMem

/-- The whole loop: after a 1 ms delay `allow_delay` becomes false; after a
memtable switch `force` becomes false; waits leave both flags unchanged;
an error or available room ends the call. -/
def makeRoomRun (cfg : StallConfig) : Bool → Bool → List StallEnv → List StallAction
  | _, _, [] => []
  | allowDelay, force, e :: rest =>
    match makeRoomStep cfg allowDelay force e with
    | .yieldError => [.yieldError]
    | .breakOk => [.breakOk]
    | .delayMs => .delayMs :: makeRoomRun cfg false force rest
    | .waitImm => .waitImm :: makeRoomRun cfg allowDelay force rest
    | .waitL0 => .waitL0 :: makeRoomRun cfg allowDelay force rest
    | .switchMem => .switchMem :: makeRoomRun cfg allowDelay false rest

/-- `DBImpl::MakeRoomForWrite(force)`: `allow_delay` starts as `!force`. -/
def makeRoomForWrite (cfg : StallConfig) (force : Bool) (envs : List StallEnv) :
    List StallAction :=
  makeRoomRun cfg (!force) force envs

/-- With `allow_delay` already spent, no later iteration delays again. -/
theorem makeRoomRun_no_delay (cfg : StallConfig) :
    ∀ (envs : List StallEnv) (force : Bool),
      (makeRoomRun cfg false force envs).count .delayMs = 0 := by
  intro envs
  induction envs with
  | nil => intro force; rfl
  | cons e rest ih =>
    intro force
    cases h : makeRoomStep cfg false force e with
    | yieldError => simp [makeRoomRun, h]
    | breakOk => simp [makeRoomRun, h]
    | delayMs =>
      exfalso
      simp only [makeRoomStep] at h
      split_ifs at h
      simp_all
    | waitImm => simp [makeRoomRun, h, List.count_cons, ih force]
    | waitL0 => simp [makeRoomRun, h, List.count_cons, ih force]
    | switchMem => simp [makeRoomRun, h, List.count_cons, ih false]

/-- Any run of the loop delays at most once. -/
theorem makeRoomRun_delay_le_one (cfg : StallConfig) :
    ∀ (envs : List StallEnv) (allowDelay force : Bool),
      (makeRoomRun cfg allowDelay force envs).count .delayMs ≤ 1 := by
  intro envs
  induction envs with
  | nil => intro ad f; simp [makeRoomRun]
  | cons e rest ih =>
    intro ad f
    cases h : makeRoomStep cfg ad f e with
    | yieldError => simp [makeRoomRun, h]
    | breakOk => simp [makeRoomRun, h]
    | delayMs =>
      simp only [makeRoomRun, h, List.count_cons]
      have := makeRoomRun_no_delay cfg rest f
      simp [this]
    | waitImm =>
      simp only [makeRoomRun, h, List.count_cons]
      have := ih ad f
      simp
      omega
    | waitL0 =>
      simp only [makeRoomRun, h, List.count_cons]
      have := ih ad f
      simp
      omega
    | switchMem =>
      simp only [makeRoomRun, h, List.count_cons]
      have := ih ad false
      simp
      omega

/-- C6: the write path delays ~1 ms at most once per `MakeRoomForWrite`
call (the slowdown-trigger branch clears `allow_delay`); the delay is
taken exactly when the delay is still allowed and the level-0 file count
reaches the slowdown trigger; and when the delay is unavailable and the
memtable must be rotated with level-0 at the stop trigger, the iteration
waits on the background-compaction condition variable instead, the loop
re-examining the state afterwards (until level-0 drains). -/
theorem claim_C6_make_room_for_write (cfg : StallConfig) (force : Bool)
    (envs rest : List StallEnv) (ad f : Bool) (e : StallEnv) :
    (makeRoomForWrite cfg force envs).count .delayMs ≤ 1 ∧
    (makeRoomStep cfg ad f e = .delayMs ↔
      (e.bgErrorOk = true ∧ ad = true ∧ cfg.slowdownTrigger ≤ e.l0Files)) ∧
    (makeRoomStep cfg ad f e = .waitL0 ↔
      (e.bgErrorOk = true ∧ ¬(ad = true ∧ cfg.slowdownTrigger ≤ e.l0Files) ∧
        e.shuttingDown = false ∧ ¬(f = false ∧ e.memUsage ≤ cfg.writeBufferSize) ∧
        e.immPresent = false ∧ cfg.stopTrigger ≤ e.l0Files)) ∧
    (makeRoomStep cfg ad f e = .waitL0 →
      makeRoomRun cfg ad f (e :: rest) = .waitL0 :: makeRoomRun cfg ad f rest) := by
  refine ⟨makeRoomRun_delay_le_one cfg envs (!force) force, ?_, ?_, ?_⟩
  · simp only [makeRoomStep]
    split_ifs with h1 h2 h3 h4 h5 h6 <;> simp_all
  · simp only [makeRoomStep]
    split_ifs with h1 h2 h3 h4 h5 h6 <;> simp_all
  · intro h
    simp [makeRoomRun, h]

/-- Concrete instantiation of `claim_C6_make_room_for_write`: with
triggers (slowdown 4, stop 8) and nine level-0 files, a full memtable and
no immutable memtable, the first iteration (delay allowed) sleeps 1 ms and
the second (delay spent) waits on the condition variable; a two-iteration
run delays only once. -/
theorem claim_C6_make_room_for_write_witness :
    (makeRoomForWrite ⟨4, 8, 100⟩ false
      [⟨true, 9, false, 200, false⟩, ⟨true, 9, false, 200, false⟩]).count .delayMs ≤ 1 ∧
    makeRoomStep ⟨4, 8, 100⟩ true false ⟨true, 9, false, 200, false⟩ = .delayMs ∧
    makeRoomStep ⟨4, 8, 100⟩ false false ⟨true, 9, false, 200, false⟩ = .waitL0 := by
  have h := claim_C6_make_room_for_write ⟨4, 8, 100⟩ false
    [⟨true, 9, false, 200, false⟩, ⟨true, 9, false, 200, false⟩] []
    true false ⟨true, 9, false, 200, false⟩
  have h2 := claim_C6_make_room_for_write ⟨4, 8, 100⟩ false [] []
    false false ⟨true, 9, false, 200, false⟩
  refine ⟨h.1, ?_, ?_⟩
  · exact h.2.1.mpr (by refine ⟨rfl, rfl, by decide⟩)
  · exact h2.2.2.1.mpr (by refine ⟨rfl, ?_, rfl, ?_, rfl, by decide⟩ <;> simp)

/-! ## C10 — `DBImpl::CompactMemTable` (`db_impl.cc`, lines 783-846)

The flush of the immutable memtable: mark it `being flushed`; release it
immediately when empty (no table is built); otherwise build a level-0
table (`WriteLevel0Table`) and apply the `VersionEdit` to the MANIFEST
(`versions_->LogAndApply`).  Only when both steps succeed is `imm_`
unreferenced and cleared; on any failure `SetBeingFlushed(false)` re-arms
the memtable for a retry.  The outcomes of the two environment steps enter
as the `buildStatus` and `applyStatus` inputs. -/

/-- The immutable memtable state that `CompactMemTable` inspects:
`BeingFlushed()`, `ApproximateMemoryUsage()`, `GetLastSequence()`. -/
structure ImmState where
  beingFlushed : Bool
  memoryUsage : Nat
  lastSequence : Nat
deriving Repr, DecidableEq

/-- Result of one `CompactMemTable` call: the returned status, the new
`imm_` pointer, whether `WriteLevel0Table` was invoked (a table build was
attempted), and whether the `VersionEdit` reached the MANIFEST. -/
structure CompactMemResult where
  status : Status
  imm : Option ImmState
  builtTable : Bool
  editApplied : Bool
deriving Repr, DecidableEq

/-- `DBImpl::CompactMemTable` (requires `imm_ != NULL`; the
`BeingFlushed()` early return at line 790 is included). -/
def compactMemTable (imm : ImmState) (buildStatus applyStatus : Status) :
    CompactMemResult :=
  if imm.beingFlushed then ⟨Status.ok, some imm, false, false⟩
  else
    let imm1 : ImmState := { imm with beingFlushed := true }
    if imm1.memoryUsage = 0 then ⟨Status.ok, none, false, false⟩
    else if buildStatus.isOk then
      if applyStatus.isOk then ⟨applyStatus, none, true, true⟩
      else ⟨applyStatus, some { imm1 with beingFlushed := false }, true, false⟩
    else ⟨buildStatus, some { imm1 with beingFlushed := false }, true, false⟩

/-- C10: if flushing the immutable memtable fails at the level-0 build or
at the MANIFEST apply, the immutable memtable pointer stays non-null with
its being-flushed flag reset to false (ready for retry); `imm_` is cleared
exactly when it was empty or both steps succeeded; a non-empty `imm_` is
cleared only once the `VersionEdit` has been applied; and an empty
immutable memtable is released without building any file. -/
theorem claim_C10_compact_memtable_failure (imm : ImmState)
    (buildStatus applyStatus : Status) (hbf : imm.beingFlushed = false) :
    ((buildStatus.isOk = false ∨ applyStatus.isOk = false) → imm.memoryUsage ≠ 0 →
      (compactMemTable imm buildStatus applyStatus).imm =
        some ⟨false, imm.memoryUsage, imm.lastSequence⟩) ∧
    ((compactMemTable imm buildStatus applyStatus).imm = none ↔
      (imm.memoryUsage = 0 ∨ (buildStatus.isOk = true ∧ applyStatus.isOk = true))) ∧
    (imm.memoryUsage ≠ 0 → (compactMemTable imm buildStatus applyStatus).imm = none →
      (compactMemTable imm buildStatus applyStatus).editApplied = true) ∧
    (imm.memoryUsage = 0 →
      compactMemTable imm buildStatus applyStatus = ⟨Status.ok, none, false, false⟩) := by
  by_cases hm : imm.memoryUsage = 0
  · refine ⟨fun _ hne => absurd hm hne, ?_, fun hne => absurd hm hne, fun _ => ?_⟩
    · simp [compactMemTable, hbf, hm]
    · simp [compactMemTable, hbf, hm]
  · by_cases hb : buildStatus.isOk = true
    · by_cases ha : applyStatus.isOk = true
      · refine ⟨?_, ?_, ?_, fun h0 => absurd h0 hm⟩
        · rintro (h | h) _ <;> simp_all
        · simp [compactMemTable, hbf, hm, hb, ha]
        · intro _ _
          simp [compactMemTable, hbf, hm, hb, ha]
      · have ha' : applyStatus.isOk = false := by
          exact Bool.eq_false_iff.mpr ha
        refine ⟨fun _ _ => ?_, ?_, ?_, fun h0 => absurd h0 hm⟩
        · simp [compactMemTable, hbf, hm, hb, ha']
        · simp [compactMemTable, hbf, hm, hb, ha']
        · intro _ hnone
          exfalso
          simp [compactMemTable, hbf, hm, hb, ha'] at hnone
    · have hb' : buildStatus.isOk = false := by
        exact Bool.eq_false_iff.mpr hb
      refine ⟨fun _ _ => ?_, ?_, ?_, fun h0 => absurd h0 hm⟩
      · simp [compactMemTable, hbf, hm, hb']
      · simp [compactMemTable, hbf, hm, hb']
      · intro _ hnone
        exfalso
        simp [compactMemTable, hbf, hm, hb'] at hnone

/-- Concrete instantiation of `claim_C10_compact_memtable_failure`: a
failed MANIFEST apply leaves a 64-byte immutable memtable in place with
its flush flag reset. -/
theorem claim_C10_compact_memtable_failure_witness :
    (compactMemTable ⟨false, 64, 17⟩ Status.ok Status.ioError).imm =
      some ⟨false, 64, 17⟩ ∧
    compactMemTable ⟨false, 0, 17⟩ Status.ok Status.ioError =
      ⟨Status.ok, none, false, false⟩ := by
  have h1 := claim_C10_compact_memtable_failure ⟨false, 64, 17⟩ Status.ok Status.ioError rfl
  have h2 := claim_C10_compact_memtable_failure ⟨false, 0, 17⟩ Status.ok Status.ioError rfl
  exact ⟨h1.1 (Or.inr rfl) (by decide), h2.2.2.2 rfl⟩

/-! ## C3 — `BlockCacheImpl::DeleteFile` (`block_cache.cc`, lines 1554-1569)
and `BlockCacheEnv::DeleteFile` (lines 354-361)

The persistent cache's metadata store holds `FNAME#<path> → file_id`
records and `DS#<sid><slot> → (fid, block_idx, state)` records.
`BlockCacheImpl::DeleteFile(fname)` issues a single
`db_->Delete("FNAME#" + fname)` (through `LockAndPut` with
`kDeleteDBKey`); `BlockCacheEnv::DeleteFile` routes to the cache only for
paths ending in `.sst` (`fname.rfind(".sst") == fname.size() - 4`) before
deleting on the DFS. -/

/-- A record of the persistent-cache metadata store. -/
inductive MetaEntry where
  | fnameRec (path : Bytes) (fid : Nat) : MetaEntry
  | dsRec (sid : Nat) (slot : Nat) (fid : Nat) (blockIdx : Nat) (state : Nat) : MetaEntry
deriving DecidableEq, Repr

/-- Whether a record's key is `FNAME#<path>` for the given path. -/
def isFnameKeyFor (path : Bytes) : MetaEntry → Bool
  | .fnameRec p _ => p = path
  | .dsRec _ _ _ _ _ => false

/-- The file id a metadata record carries (the value of an `FNAME#` record,
the `fid` field of a `DS#` record). -/
def entryFid : MetaEntry → Nat
  | .fnameRec _ fid => fid
  | .dsRec _ _ fid _ _ => fid

/-- `BlockCacheImpl::DeleteFile(fname)`: delete the single metadata key
`FNAME#<fname>`.  No other record is touched. -/
def blockCacheDeleteFile (db : List MetaEntry) (fname : Bytes) : List MetaEntry :=
  db.filter (fun r => !(isFnameKeyFor fname r))

/-- `fname.rfind(".sst") == fname.size() - 4`. -/
def hasSstSuffix (fname : Bytes) : Bool :=
  ['.', 's', 's', 't'].isSuffixOf fname

/-- `BlockCacheEnv::DeleteFile(fname)`: forward to the block cache only for
`.sst` paths (the DFS-side deletion does not affect the metadata store). -/
def blockCacheEnvDeleteFile (db : List MetaEntry) (fname : Bytes) : List MetaEntry :=
  if hasSstSuffix fname then blockCacheDeleteFile db fname else db

/-- The metadata store of the counterexample: the path `a.sst` has file id
7, and one of its blocks has a `DS#` record in data-set 0, slot 3. -/
def c3Db : List MetaEntry :=
  [.fnameRec ['a', '.', 's', 's', 't'] 7, .dsRec 0 3 7 0 1]

/-- C3, counterexample: deleting `a.sst` (file id 7) removes the `FNAME#`
record but leaves the `DS#` block record carrying fid 7 in the metadata
store — refuting the claim that no persistent-cache key carrying the
file-id remains after `DeleteFile`. -/
theorem claim_C3_counterexample :
    blockCacheEnvDeleteFile c3Db ['a', '.', 's', 's', 't'] = [.dsRec 0 3 7 0 1] ∧
    (blockCacheEnvDeleteFile c3Db ['a', '.', 's', 's', 't']).any
      (fun r => entryFid r = 7) = true := by
  constructor
  · rfl
  · rfl

/-- C3, amended: after `DeleteFile(p)` on an `.sst` path, the `FNAME#`
name-to-id record for `p` is gone; every other metadata record — in
particular every `DS#` block record, including those carrying `p`'s
file-id — survives unchanged, and a non-`.sst` path leaves the store
untouched. -/
theorem claim_C3_delete_file_fname_only (db : List MetaEntry) (fname : Bytes)
    (r : MetaEntry) (fid sid slot blockIdx state : Nat)
    (hsst : hasSstSuffix fname = true) :
    (MetaEntry.fnameRec fname fid ∉ blockCacheEnvDeleteFile db fname) ∧
    (r ∈ blockCacheEnvDeleteFile db fname ↔
      r ∈ db ∧ isFnameKeyFor fname r = false) ∧
    (MetaEntry.dsRec sid slot fid blockIdx state ∈ blockCacheEnvDeleteFile db fname ↔
      MetaEntry.dsRec sid slot fid blockIdx state ∈ db) ∧
    (∀ (db' : List MetaEntry) (g : Bytes), hasSstSuffix g = false →
      blockCacheEnvDeleteFile db' g = db') := by
  refine ⟨?_, ?_, ?_, ?_⟩
  · intro hmem
    simp only [blockCacheEnvDeleteFile, hsst, if_pos] at hmem
    have := (List.mem_filter.mp hmem).2
    simp [isFnameKeyFor] at this
  · simp only [blockCacheEnvDeleteFile, hsst, if_pos]
    constructor
    · intro hmem
      exact ⟨(List.mem_filter.mp hmem).1, by
        have := (List.mem_filter.mp hmem).2
        simpa using this⟩
    · intro ⟨h1, h2⟩
      exact List.mem_filter.mpr ⟨h1, by simp [h2]⟩
  · simp only [blockCacheEnvDeleteFile, hsst, if_pos]
    constructor
    · intro hmem
      exact (List.mem_filter.mp hmem).1
    · intro hmem
      exact List.mem_filter.mpr ⟨hmem, by simp [isFnameKeyFor]⟩
  · intro db' g hg
    simp [blockCacheEnvDeleteFile, hg]

/-- Concrete instantiation of `claim_C3_delete_file_fname_only` on the
counterexample store. -/
theorem claim_C3_delete_file_fname_only_witness :
    (MetaEntry.fnameRec ['a', '.', 's', 's', 't'] 7 ∉
      blockCacheEnvDeleteFile c3Db ['a', '.', 's', 's', 't']) ∧
    (MetaEntry.dsRec 0 3 7 0 1 ∈ blockCacheEnvDeleteFile c3Db ['a', '.', 's', 's', 't']) := by
  have h := claim_C3_delete_file_fname_only c3Db ['a', '.', 's', 's', 't']
    (MetaEntry.dsRec 0 3 7 0 1) 7 0 3 0 1 (by decide)
  exact ⟨h.1, h.2.2.1.mpr (by decide)⟩

/-! ## C8 — `TabletNodeImpl::PersistentCacheGarbageCollect`
(`tabletnode_impl.cc`, lines 1422-1481)

Every GC cycle walks all persistent-cache keys.  A key in
`inherited_files` or belonging to a tablet in `active_tablets` (by its
`table_name/tablet_name` prefix) is skipped; otherwise, if it is already
on `delayed_gc_files_` it is force-evicted, else it is put on the new
delayed list.  Finally `delayed_gc_files_` is swapped with the list built
this cycle. -/

/-- `SplitString(key, "/", ...)`: split a byte string at `/`. -/
def splitSlash : Bytes → List Bytes
  | [] => [[]]
  | c :: rest =>
    match splitSlash rest with
    | [] => [[c]]
    | seg :: segs => if c = '/' then [] :: seg :: segs else (c :: seg) :: segs

/-- `splited_terms[0] + "/" + splited_terms[1]`: the
`table_name/tablet_name` prefix of a cache key (the code asserts the key
splits into more than two terms). -/
def tabletNameOf (key : Bytes) : Bytes :=
  match splitSlash key with
  | t :: n :: _ => t ++ '/' :: n
  | _ => []

/-- Inputs of one GC cycle: the cached keys, the inherited-file and
active-tablet sets from the tablet manager, and the delayed list produced
by the immediately preceding cycle. -/
structure GCState where
  allKeys : List Bytes
  inheritedFiles : List Bytes
  activeTablets : List Bytes
  delayedGcFiles : List Bytes
deriving Repr

/-- The loop body at lines 1453-1476, accumulating the force-evicted keys
and the `new_delayed_gc_files` list. -/
def gcStep (st : GCState) (acc : List Bytes × List Bytes) (key : Bytes) :
    List Bytes × List Bytes :=
  if key ∈ st.inheritedFiles then acc
  else if tabletNameOf key ∈ st.activeTablets then acc
  else if key ∈ st.delayedGcFiles then (acc.1 ++ [key], acc.2)
  else (acc.1, acc.2 ++ [key])

/-- One `PersistentCacheGarbageCollect` cycle: the force-evicted keys and
the delayed list that will be `delayed_gc_files_` for the next cycle. -/
def gcCycle (st : GCState) : List Bytes × List Bytes :=
  st.allKeys.foldl (gcStep st) ([], [])

theorem gcFold_fst_mono (st : GCState) (keys : List Bytes) :
    ∀ (acc : List Bytes × List Bytes) (k : Bytes),
      k ∈ acc.1 → k ∈ (keys.foldl (gcStep st) acc).1 := by
  induction keys with
  | nil => intro acc k h; exact h
  | cons key rest ih =>
    intro acc k h
    apply ih
    simp only [gcStep]
    split_ifs <;> simp [h]

theorem gcFold_snd_mono (st : GCState) (keys : List Bytes) :
    ∀ (acc : List Bytes × List Bytes) (k : Bytes),
      k ∈ acc.2 → k ∈ (keys.foldl (gcStep st) acc).2 := by
  induction keys with
  | nil => intro acc k h; exact h
  | cons key rest ih =>
    intro acc k h
    apply ih
    simp only [gcStep]
    split_ifs <;> simp [h]

theorem gcFold_fst_origin (st : GCState) (keys : List Bytes) :
    ∀ (acc : List Bytes × List Bytes) (k : Bytes),
      k ∈ (keys.foldl (gcStep st) acc).1 →
      k ∈ acc.1 ∨ (k ∈ keys ∧ k ∈ st.delayedGcFiles) := by
  induction keys with
  | nil => intro acc k h; exact Or.inl h
  | cons key rest ih =>
    intro acc k h
    rcases ih (gcStep st acc key) k h with h1 | ⟨h1, h2⟩
    · simp only [gcStep] at h1
      split_ifs at h1 with hinh hact hdel
      · exact Or.inl h1
      · exact Or.inl h1
      · simp only [List.mem_append, List.mem_singleton] at h1
        rcases h1 with h1 | rfl
        · exact Or.inl h1
        · exact Or.inr ⟨List.mem_cons_self _ _, hdel⟩
      · exact Or.inl h1
    · exact Or.inr ⟨List.mem_cons_of_mem _ h1, h2⟩

theorem gcFold_qualifying_delayed (st : GCState) (keys : List Bytes) :
    ∀ (acc : List Bytes × List Bytes) (k : Bytes),
      k ∈ keys → k ∉ st.inheritedFiles → tabletNameOf k ∉ st.activeTablets →
      k ∉ st.delayedGcFiles → k ∈ (keys.foldl (gcStep st) acc).2 := by
  induction keys with
  | nil => intro acc k h; cases h
  | cons key rest ih =>
    intro acc k hk hinh hact hdel
    rcases List.mem_cons.mp hk with rfl | hk'
    · rw [List.foldl_cons]
      apply gcFold_snd_mono st rest
      simp only [gcStep]
      rw [if_neg hinh, if_neg hact, if_neg hdel]
      simp
    · exact ih _ k hk' hinh hact hdel

/-- C8: in each persistent-cache GC cycle, a key is force-evicted only if
the immediately preceding cycle put it on the delayed-gc list; a key whose
file is neither inherited nor of an active tablet but is *not* yet on the
delayed list is only added to the new delayed list (not evicted); hence
every key that survives the cycle is inherited, belongs to an active
tablet, or sits on the one-cycle grace list. -/
theorem claim_C8_persistent_cache_gc (st : GCState) (k : Bytes) :
    (k ∈ (gcCycle st).1 → k ∈ st.delayedGcFiles) ∧
    (k ∈ st.allKeys → k ∉ st.inheritedFiles → tabletNameOf k ∉ st.activeTablets →
      k ∉ st.delayedGcFiles → k ∈ (gcCycle st).2 ∧ k ∉ (gcCycle st).1) ∧
    (k ∈ st.allKeys → k ∉ (gcCycle st).1 →
      k ∈ st.inheritedFiles ∨ tabletNameOf k ∈ st.activeTablets ∨ k ∈ (gcCycle st).2) := by
  refine ⟨?_, ?_, ?_⟩
  · intro h
    rcases gcFold_fst_origin st st.allKeys ([], []) k h with h1 | ⟨_, h2⟩
    · cases h1
    · exact h2
  · intro hk hinh hact hdel
    refine ⟨gcFold_qualifying_delayed st st.allKeys ([], []) k hk hinh hact hdel, ?_⟩
    intro hev
    rcases gcFold_fst_origin st st.allKeys ([], []) k hev with h1 | ⟨_, h2⟩
    · cases h1
    · exact hdel h2
  · intro hk hnev
    by_cases hinh : k ∈ st.inheritedFiles
    · exact Or.inl hinh
    · by_cases hact : tabletNameOf k ∈ st.activeTablets
      · exact Or.inr (Or.inl hact)
      · by_cases hdel : k ∈ st.delayedGcFiles
        · exfalso
          apply hnev
          clear hnev
          revert hk
          -- a qualifying delayed key is appended to the evicted list when
          -- processed, and the evicted list only grows
          have : ∀ (keys : List Bytes) (acc : List Bytes × List Bytes),
              k ∈ keys → k ∈ (keys.foldl (gcStep st) acc).1 := by
            intro keys
            induction keys with
            | nil => intro acc h; cases h
            | cons key rest ih =>
              intro acc h
              rcases List.mem_cons.mp h with rfl | h'
              · rw [List.foldl_cons]
                apply gcFold_fst_mono st rest
                simp only [gcStep]
                rw [if_neg hinh, if_neg hact, if_pos hdel]
                simp
              · exact ih _ h'
          exact fun hk => this st.allKeys ([], []) hk
        · exact Or.inr (Or.inr
            (gcFold_qualifying_delayed st st.allKeys ([], []) k hk hinh hact hdel))

/-- Concrete instantiation of `claim_C8_persistent_cache_gc`: with keys
`t/x/0/1.sst` (delayed last cycle) and `t/y/0/2.sst` (fresh orphan),
neither inherited nor active, the first is evicted and the second only
joins the new delayed list. -/
theorem claim_C8_persistent_cache_gc_witness :
    (['t', '/', 'y', '/', '0', '/', '2'] ∈
      (gcCycle ⟨[['t', '/', 'x', '/', '0', '/', '1'], ['t', '/', 'y', '/', '0', '/', '2']],
        [], [], [['t', '/', 'x', '/', '0', '/', '1']]⟩).2) ∧
    (['t', '/', 'y', '/', '0', '/', '2'] ∉
      (gcCycle ⟨[['t', '/', 'x', '/', '0', '/', '1'], ['t', '/', 'y', '/', '0', '/', '2']],
        [], [], [['t', '/', 'x', '/', '0', '/', '1']]⟩).1) := by
  have h := claim_C8_persistent_cache_gc
    ⟨[['t', '/', 'x', '/', '0', '/', '1'], ['t', '/', 'y', '/', '0', '/', '2']],
      [], [], [['t', '/', 'x', '/', '0', '/', '1']]⟩
    ['t', '/', 'y', '/', '0', '/', '2']
  exact h.2.1 (by decide) (by decide) (by decide) (by decide)

/-! ## C2 — the compaction walk of `DBImpl::HandleCompactionWork`
(`db_impl.cc`, lines 1508-1583)

The walk over the merged inputs keeps per-entry state
`(has_current_user_key, current_user_key, last_sequence_for_key)` and
decides `drop` for every parsed internal key by, in order: the rollback
predicate `RollbackDrop(sequence, rollbacks_)`; being hidden by a newer
same-user-key entry (`last_sequence_for_key <= smallest_snapshot &&
last_sequence_for_key != kMaxSequenceNumber`); the base-level
deletion-tombstone rule (`type == kTypeDeletion && sequence <=
smallest_snapshot && drop_base_level_del_in_compaction &&
IsBaseLevelForKey`); and finally the pluggable strategy's `Drop` for
entries with `sequence <= smallest_snapshot`. -/

/-- Modelled from the spec: `RollbackDrop(sequence, rollbacks_)` — its
definition is not among the provided sources.  §4.1 Rollback: a recorded
pair `rollbacks[snapshot_seq] = rollback_point` hides exactly the entries
with `snapshot_seq < sequence ≤ rollback_point`. -/
def rollbackDrop (sequence : Nat) (rollbacks : List (Nat × Nat)) : Bool :=
  rollbacks.any (fun p => decide (p.1 < sequence) && decide (sequence ≤ p.2))

/-- A parsed internal key met by the walk: user key, sequence, type. -/
structure CEntry where
  userKey : String
  seq : Nat
  isDeletion : Bool
deriving DecidableEq, Repr

/-- The inputs fixed for one (sub-)compaction walk: `smallest_snapshot`,
the engine's `rollbacks_` map, `options_.drop_base_level_del_in_compaction`,
the compaction's `IsBaseLevelForKey`, and the strategy (presence and its
`Drop` predicate, which internally receives `drop_lower_bound`). -/
structure CompactCfg where
  smallestSnapshot : Nat
  rollbacks : List (Nat × Nat)
  dropBaseLevelDel : Bool
  isBaseLevelForKey : String → Bool
  hasStrategy : Bool
  strategyDrop : String → Nat → Bool

/-- The drop decision of lines 1557-1580 given the value
`last_sequence_for_key` holds when the branches run. -/
def dropDecision (cfg : CompactCfg) (lastSeq : Nat) (e : CEntry) : Bool :=
  if rollbackDrop e.seq cfg.rollbacks then true
  else if lastSeq ≤ cfg.smallestSnapshot ∧ lastSeq ≠ kMaxSequenceNumber then true
  else if e.isDeletion = true ∧ e.seq ≤ cfg.smallestSnapshot ∧
      cfg.dropBaseLevelDel = true ∧ cfg.isBaseLevelForKey e.userKey = true then true
  else if cfg.hasStrategy = true ∧ e.seq ≤ cfg.smallestSnapshot then
    cfg.strategyDrop e.userKey e.seq
  else false

/-- The walk's per-key state (lines 1509-1511). -/
structure WalkState where
  hasCurrentUserKey : Bool
  currentUserKey : String
  lastSequenceForKey : Nat

/-- One iteration of the walk for a parsed key: reset the state on the
first occurrence of a user key (lines 1549-1555), decide `drop`, then
`last_sequence_for_key = ikey.sequence` (line 1582). -/
def compactStepDrop (cfg : CompactCfg) (st : WalkState) (e : CEntry) : Bool × WalkState :=
  let lastSeq : Nat :=
    if st.hasCurrentUserKey = true ∧ st.currentUserKey = e.userKey then
      st.lastSequenceForKey
    else kMaxSequenceNumber
  (dropDecision cfg lastSeq e, ⟨true, e.userKey, e.seq⟩)

/-- The drop decisions of the whole walk, in input order. -/
def compactWalkAux (cfg : CompactCfg) : WalkState → List CEntry → List Bool
  | _, [] => []
  | st, e :: rest =>
    (compactStepDrop cfg st e).1 :: compactWalkAux cfg (compactStepDrop cfg st e).2 rest

/-- `HandleCompactionWork`'s walk, started with
`has_current_user_key = false` and `last_sequence_for_key =
kMaxSequenceNumber` (`true` in the output means the entry is dropped). -/
def compactWalk (cfg : CompactCfg) (entries : List CEntry) : List Bool :=
  compactWalkAux cfg ⟨false, "", kMaxSequenceNumber⟩ entries

/-- The drop decision as a function of the immediately preceding entry of
the walk (the state when entry `e` is processed is exactly
`⟨true, p.userKey, p.seq⟩` for its predecessor `p`). -/
def entryDrop (cfg : CompactCfg) (prev : Option CEntry) (e : CEntry) : Bool :=
  dropDecision cfg
    (match prev with
     | some p => if p.userKey = e.userKey then p.seq else kMaxSequenceNumber
     | none => kMaxSequenceNumber) e

/-- The walk state reached after processing `prev`. -/
def stateOf : Option CEntry → WalkState
  | none => ⟨false, "", kMaxSequenceNumber⟩
  | some p => ⟨true, p.userKey, p.seq⟩

theorem compactWalkAux_eq_zipWith (cfg : CompactCfg) :
    ∀ (entries : List CEntry) (prev : Option CEntry),
      compactWalkAux cfg (stateOf prev) entries =
        List.zipWith (entryDrop cfg) (prev :: entries.map some) entries := by
  intro entries
  induction entries with
  | nil => intro prev; rfl
  | cons e rest ih =>
    intro prev
    have hstep : compactStepDrop cfg (stateOf prev) e = (entryDrop cfg prev e, stateOf (some e)) := by
      cases prev with
      | none =>
        simp [compactStepDrop, entryDrop, stateOf]
      | some p =>
        by_cases hk : p.userKey = e.userKey
        · simp [compactStepDrop, entryDrop, stateOf, hk]
        · simp [compactStepDrop, entryDrop, stateOf, hk]
    show (compactStepDrop cfg (stateOf prev) e).1 ::
        compactWalkAux cfg (compactStepDrop cfg (stateOf prev) e).2 rest =
      entryDrop cfg prev e :: List.zipWith (entryDrop cfg) (some e :: rest.map some) rest
    rw [hstep]
    exact congrArg _ (ih (some e))

/-- The rollback-hiding counterexample configuration: a rollback window
`(0, 10]` is registered, `smallest_snapshot = 3`, no strategy. -/
def c2Cfg : CompactCfg :=
  ⟨3, [(0, 10)], false, fun _ => false, false, fun _ _ => false⟩

/-- C2, counterexample: with rollback window `(0, 10]` registered and
`smallest_snapshot = 3`, the single entry `("k", seq 5, value)` has
`sequence > smallest_snapshot` yet the walk drops it (`RollbackDrop` fires
at line 1557) — refuting the claim that every entry with
`sequence > smallest_snapshot` is kept. -/
theorem claim_C2_counterexample :
    compactWalk c2Cfg [⟨"k", 5, false⟩] = [true] ∧
    c2Cfg.smallestSnapshot < 5 := by
  exact ⟨rfl, by decide⟩

/-- C2, amended: in the walk (whose decisions factor through `entryDrop`
on consecutive entries), an entry with `sequence > smallest_snapshot` is
kept *unless a registered rollback window hides it* (given the
internal-key order: a same-user-key predecessor has a larger sequence);
every entry whose same-user-key predecessor already had `sequence ≤
smallest_snapshot` is dropped (so at most the first such entry per user
key survives); and a deletion tombstone with `sequence ≤
smallest_snapshot` is dropped when `drop_base_level_del_in_compaction` is
enabled and the compaction is at the base level for that key. -/
theorem claim_C2_compaction_walk_drops (cfg : CompactCfg) (entries : List CEntry)
    (prev : Option CEntry) (e p : CEntry) :
    (compactWalk cfg entries =
      List.zipWith (entryDrop cfg) (none :: entries.map some) entries) ∧
    (cfg.smallestSnapshot < e.seq → rollbackDrop e.seq cfg.rollbacks = false →
      (∀ q, prev = some q → q.userKey = e.userKey → e.seq < q.seq) →
      entryDrop cfg prev e = false) ∧
    (prev = some p → p.userKey = e.userKey → p.seq ≤ cfg.smallestSnapshot →
      p.seq ≠ kMaxSequenceNumber → entryDrop cfg prev e = true) ∧
    (e.isDeletion = true → e.seq ≤ cfg.smallestSnapshot → cfg.dropBaseLevelDel = true →
      cfg.isBaseLevelForKey e.userKey = true → entryDrop cfg prev e = true) := by
  refine ⟨compactWalkAux_eq_zipWith cfg entries none, ?_, ?_, ?_⟩
  · intro hsnap hrb hord
    have hfalse : ∀ lastSeq : Nat,
        ¬(lastSeq ≤ cfg.smallestSnapshot ∧ lastSeq ≠ kMaxSequenceNumber) →
        dropDecision cfg lastSeq e = false := by
      intro lastSeq h2
      simp only [dropDecision]
      rw [hrb, if_neg Bool.false_ne_true, if_neg h2, if_neg ?_, if_neg ?_]
      · rintro ⟨_, hd⟩
        omega
      · rintro ⟨_, hc, _⟩
        omega
    cases prev with
    | none =>
      exact hfalse kMaxSequenceNumber (by rintro ⟨_, h⟩; exact h rfl)
    | some q =>
      by_cases hk : q.userKey = e.userKey
      · have hlt : e.seq < q.seq := hord q rfl hk
        show dropDecision cfg (if q.userKey = e.userKey then q.seq else kMaxSequenceNumber) e
          = false
        rw [if_pos hk]
        exact hfalse q.seq (by rintro ⟨h', _⟩; omega)
      · show dropDecision cfg (if q.userKey = e.userKey then q.seq else kMaxSequenceNumber) e
          = false
        rw [if_neg hk]
        exact hfalse kMaxSequenceNumber (by rintro ⟨_, h⟩; exact h rfl)
  · rintro rfl hk hle hmax
    show dropDecision cfg (if p.userKey = e.userKey then p.seq else kMaxSequenceNumber) e
      = true
    rw [if_pos hk]
    simp only [dropDecision]
    by_cases hrb : rollbackDrop e.seq cfg.rollbacks = true
    · rw [hrb, if_pos rfl]
    · rw [Bool.eq_false_iff.mpr hrb, if_neg Bool.false_ne_true, if_pos ⟨hle, hmax⟩]
  · intro hdel hle hflag hbase
    have htrue : ∀ lastSeq : Nat, dropDecision cfg lastSeq e = true := by
      intro lastSeq
      simp only [dropDecision]
      by_cases hrb : rollbackDrop e.seq cfg.rollbacks = true
      · rw [hrb, if_pos rfl]
      · rw [Bool.eq_false_iff.mpr hrb, if_neg Bool.false_ne_true]
        by_cases hhid : lastSeq ≤ cfg.smallestSnapshot ∧ lastSeq ≠ kMaxSequenceNumber
        · rw [if_pos hhid]
        · rw [if_neg hhid, if_pos ⟨hdel, hle, hflag, hbase⟩]
    cases prev with
    | none => exact htrue kMaxSequenceNumber
    | some q =>
      show dropDecision cfg (if q.userKey = e.userKey then q.seq else kMaxSequenceNumber) e
        = true
      exact htrue _

/-- Concrete instantiation of `claim_C2_compaction_walk_drops`: under
`smallest_snapshot = 3` with no rollbacks, the entry `("k", 1)` following
`("k", 2)` (both below the snapshot) is dropped, while `("k", 9)` at the
head of the run is kept. -/
theorem claim_C2_compaction_walk_drops_witness :
    entryDrop ⟨3, [], false, fun _ => false, false, fun _ _ => false⟩
      (some ⟨"k", 2, false⟩) ⟨"k", 1, false⟩ = true ∧
    entryDrop ⟨3, [], false, fun _ => false, false, fun _ _ => false⟩
      none ⟨"k", 9, false⟩ = false := by
  constructor
  · exact (claim_C2_compaction_walk_drops
      ⟨3, [], false, fun _ => false, false, fun _ _ => false⟩ []
      (some ⟨"k", 2, false⟩) ⟨"k", 1, false⟩ ⟨"k", 2, false⟩).2.2.1
      rfl rfl (by decide) (by decide)
  · exact (claim_C2_compaction_walk_drops
      ⟨3, [], false, fun _ => false, false, fun _ _ => false⟩ []
      none ⟨"k", 9, false⟩ ⟨"k", 9, false⟩).2.1
      (by decide) rfl (by rintro q ⟨⟩)

/-! ## C1 — `DBImpl::Get` (`db_impl.cc`, lines 1723-1766)

`Get` picks the snapshot (`options.snapshot` unless that is
`kMaxSequenceNumber`, in which case `GetLastSequence`), then probes
`mem_->Get`, then `imm_->Get` when `imm_` is non-null, then
`current->Get` over the SSTable levels.  The per-structure lookups live in
`db/memtable.cc` and `db/version_set.cc`, which are not among the provided
sources, and are modelled from the spec's read path (§4.1): return the
first entry with `sequence ≤ snapshot` in internal-key order (rollback
windows hide entries), levels probed in ascending order, level-0 files
newest first, one file per deeper level.  A deletion — or an entry the
compaction strategy marks dropped — reads as "not found". -/

/-- An entry for the probed key as a structure lookup sees it. -/
structure RVEntry where
  seq : Nat
  isDeletion : Bool
  value : String
deriving DecidableEq, Repr

/-- The per-key view of the engine at read time: the entries for the key
in the mutable memtable, the immutable memtable (when present), and each
SSTable level — all in internal-key order (sequence descending), levels
ascending, files of a level in probe order (level 0: newest first; deeper
levels: the single binary-search-located file). -/
structure ReadView where
  mem : List RVEntry
  imm : Option (List RVEntry)
  levels : List (List (List RVEntry))

/-- Modelled from the spec: the lookup one ordered structure performs
(`MemTable::Get`, a single SSTable probe — code not in the provided
sources): the first entry with `sequence ≤ snapshot` that no rollback
window hides. -/
def layerFind (snapshot : Nat) (rollbacks : List (Nat × Nat)) (es : List RVEntry) :
    Option RVEntry :=
  es.find? (fun en => decide (en.seq ≤ snapshot) && !(rollbackDrop en.seq rollbacks))

/-- Modelled from the spec: probing the files of one level in order. -/
def filesFind (snapshot : Nat) (rollbacks : List (Nat × Nat))
    (files : List (List RVEntry)) : Option RVEntry :=
  files.findSome? (layerFind snapshot rollbacks)

/-- Modelled from the spec: `Version::Get` — levels in ascending order. -/
def levelsFind (snapshot : Nat) (rollbacks : List (Nat × Nat))
    (levels : List (List (List RVEntry))) : Option RVEntry :=
  levels.findSome? (filesFind snapshot rollbacks)

/-- The probe cascade of `DBImpl::Get` lines 1744-1757: mutable memtable,
then immutable memtable if non-null, then the version's levels. -/
def dbImplFound (snapshot : Nat) (rollbacks : List (Nat × Nat)) (v : ReadView) :
    Option RVEntry :=
  match layerFind snapshot rollbacks v.mem with
  | some e => some e
  | none =>
    match v.imm with
    | some im =>
      match layerFind snapshot rollbacks im with
      | some e => some e
      | none => levelsFind snapshot rollbacks v.levels
    | none => levelsFind snapshot rollbacks v.levels

/-- `DBImpl::Get`: snapshot selection (lines 1727-1731), the probe
cascade, and the final visibility of the found entry (a deletion or a
strategy-dropped cell reads as "not found"; `sdrop` is the strategy's drop
verdict for the probed key at a given sequence). -/
def dbImplGet (optSnapshot lastSequence : Nat) (rollbacks : List (Nat × Nat))
    (sdrop : Nat → Bool) (v : ReadView) : Option String :=
  let snapshot := if optSnapshot ≠ kMaxSequenceNumber then optSnapshot else lastSequence
  match dbImplFound snapshot rollbacks v with
  | none => none
  | some e => if e.isDeletion = true ∨ sdrop e.seq = true then none else some e.value

/-- All entries for the key, in probe order. -/
def allEntries (v : ReadView) : List RVEntry :=
  v.mem ++ (match v.imm with | some im => im | none => []) ++ v.levels.flatten.flatten

/-- One step of picking the highest-sequence entry. -/
def maxSeqStep (acc : Option RVEntry) (en : RVEntry) : Option RVEntry :=
  match acc with
  | none => some en
  | some m => if m.seq < en.seq then some en else some m

/-- The claim's description of the result: the highest-sequence entry with
`sequence ≤ snapshot` among all entries for the key. -/
def specHighestVisible (snapshot : Nat) (es : List RVEntry) : Option RVEntry :=
  (es.filter (fun en => decide (en.seq ≤ snapshot))).foldl maxSeqStep none

/-- The claim's description of `Get`: the value of the highest-sequence
visible entry, not-found when that entry is a deletion or strategy-drop. -/
def specGet (snapshot : Nat) (sdrop : Nat → Bool) (v : ReadView) : Option String :=
  match specHighestVisible snapshot (allEntries v) with
  | none => none
  | some e => if e.isDeletion = true ∨ sdrop e.seq = true then none else some e.value

theorem findSome?_find?_join (p : RVEntry → Bool) :
    ∀ ls : List (List RVEntry),
      ls.findSome? (fun l => l.find? p) = ls.flatten.find? p := by
  intro ls
  induction ls with
  | nil => rfl
  | cons l rest ih =>
    rw [List.findSome?_cons, List.flatten_cons, List.find?_append]
    cases h : l.find? p with
    | none => rw [Option.none_or]; exact ih
    | some e => rfl

theorem findSome?_find?_join_join (p : RVEntry → Bool) :
    ∀ lls : List (List (List RVEntry)),
      lls.findSome? (fun ls => ls.findSome? (fun l => l.find? p)) =
        lls.flatten.flatten.find? p := by
  intro lls
  induction lls with
  | nil => rfl
  | cons ls rest ih =>
    rw [List.findSome?_cons, List.flatten_cons, List.flatten_append, List.find?_append,
      ← findSome?_find?_join p ls]
    cases h : ls.findSome? (fun l => l.find? p) with
    | none => rw [Option.none_or]; exact ih
    | some e => rfl

/-- The probe cascade is the first visible entry over all entries in probe
order. -/
theorem dbImplFound_eq_find (snapshot : Nat) (rollbacks : List (Nat × Nat))
    (v : ReadView) :
    dbImplFound snapshot rollbacks v =
      (allEntries v).find?
        (fun en => decide (en.seq ≤ snapshot) && !(rollbackDrop en.seq rollbacks)) := by
  have hlev : levelsFind snapshot rollbacks v.levels =
      v.levels.flatten.flatten.find?
        (fun en => decide (en.seq ≤ snapshot) && !(rollbackDrop en.seq rollbacks)) :=
    findSome?_find?_join_join _ v.levels
  cases himm : v.imm with
  | none =>
    simp only [dbImplFound, allEntries, himm, List.append_nil, List.nil_append,
      List.find?_append, layerFind, hlev]
    cases h : v.mem.find?
        (fun en => decide (en.seq ≤ snapshot) && !(rollbackDrop en.seq rollbacks)) with
    | none => simp [Option.or]
    | some e => simp [Option.or]
  | some im =>
    simp only [dbImplFound, allEntries, himm, List.find?_append, layerFind, hlev]
    cases h : v.mem.find?
        (fun en => decide (en.seq ≤ snapshot) && !(rollbackDrop en.seq rollbacks)) with
    | none =>
      cases h2 : im.find?
          (fun en => decide (en.seq ≤ snapshot) && !(rollbackDrop en.seq rollbacks)) with
      | none => simp [Option.or]
      | some e => simp [Option.or]
    | some e => simp [Option.or]

theorem foldl_maxSeqStep_fixed (m : RVEntry) :
    ∀ es : List RVEntry, (∀ x ∈ es, x.seq ≤ m.seq) →
      es.foldl maxSeqStep (some m) = some m := by
  intro es
  induction es with
  | nil => intro _; rfl
  | cons x rest ih =>
    intro h
    rw [List.foldl_cons]
    have hx : maxSeqStep (some m) x = some m := by
      simp only [maxSeqStep]
      rw [if_neg (by
        have := h x (List.mem_cons_self x rest)
        omega)]
    rw [hx]
    exact ih fun y hy => h y (List.mem_cons_of_mem _ hy)

/-- On a strictly sequence-descending list, the first visible entry is the
highest-sequence visible entry. -/
theorem find?_eq_specHighestVisible (s : Nat) :
    ∀ es : List RVEntry, es.Pairwise (fun a b => b.seq < a.seq) →
      es.find? (fun en => decide (en.seq ≤ s)) = specHighestVisible s es := by
  intro es
  induction es with
  | nil => intro _; rfl
  | cons e rest ih =>
    intro hp
    rcases List.pairwise_cons.mp hp with ⟨hrel, hrest⟩
    by_cases hs : e.seq ≤ s
    · rw [List.find?_cons]
      have hd : (decide (e.seq ≤ s)) = true := by simpa using hs
      rw [hd]
      simp only [specHighestVisible, List.filter_cons, hd, if_pos trivial]
      rw [List.foldl_cons]
      have : maxSeqStep none e = some e := rfl
      rw [this]
      exact (foldl_maxSeqStep_fixed e _ (fun x hx => by
        have hx' := List.mem_filter.mp hx
        have := hrel x hx'.1
        omega)).symm
    · rw [List.find?_cons]
      have hd : (decide (e.seq ≤ s)) = false := by simpa using hs
      rw [hd]
      simp only [specHighestVisible, List.filter_cons, hd]
      exact ih hrest

/-- C1: a `Get` at snapshot `s` (with the default read options: no
rollback windows) returns the value of the highest-sequence entry for the
key with `sequence ≤ s`, probing the mutable memtable, then the immutable
memtable, then the SSTable levels in ascending order — and returns
not-found when that entry is a deletion or a strategy drop; when no
snapshot is supplied (`optSnapshot = kMaxSequenceNumber`), the engine's
last sequence is used. -/
theorem claim_C1_get_snapshot_read (optSnapshot lastSequence : Nat)
    (rollbacks : List (Nat × Nat)) (sdrop : Nat → Bool) (v : ReadView)
    (hrb : rollbacks = [])
    (hsorted : (allEntries v).Pairwise (fun a b => b.seq < a.seq)) :
    dbImplGet optSnapshot lastSequence rollbacks sdrop v =
      specGet (if optSnapshot ≠ kMaxSequenceNumber then optSnapshot else lastSequence)
        sdrop v := by
  subst hrb
  have hpred : (fun (en : RVEntry) => decide (en.seq ≤
      (if optSnapshot ≠ kMaxSequenceNumber then optSnapshot else lastSequence)) &&
      !(rollbackDrop en.seq ([] : List (Nat × Nat)))) =
      (fun (en : RVEntry) => decide (en.seq ≤
        (if optSnapshot ≠ kMaxSequenceNumber then optSnapshot else lastSequence))) := by
    funext en
    simp [rollbackDrop]
  have hfound : dbImplFound
      (if optSnapshot ≠ kMaxSequenceNumber then optSnapshot else lastSequence) [] v =
      specHighestVisible
        (if optSnapshot ≠ kMaxSequenceNumber then optSnapshot else lastSequence)
        (allEntries v) := by
    rw [dbImplFound_eq_find, hpred, find?_eq_specHighestVisible _ _ hsorted]
  simp only [dbImplGet, specGet, hfound]

/-- Concrete instantiation of `claim_C1_get_snapshot_read`, matching
scenario S1 of the spec: with entries `(seq 2, "v2")` (memtable) and
`(seq 1, "v1")` (level-0 file), a read at snapshot 1 returns `"v1"`, a
read at snapshot 2 returns `"v2"`, and a read with no snapshot supplied
(last sequence 2) returns `"v2"`. -/
theorem claim_C1_get_snapshot_read_witness :
    dbImplGet 1 2 [] (fun _ => false)
      ⟨[⟨2, false, "v2"⟩], none, [[[⟨1, false, "v1"⟩]]]⟩ = some "v1" ∧
    dbImplGet 2 2 [] (fun _ => false)
      ⟨[⟨2, false, "v2"⟩], none, [[[⟨1, false, "v1"⟩]]]⟩ = some "v2" ∧
    dbImplGet kMaxSequenceNumber 2 [] (fun _ => false)
      ⟨[⟨2, false, "v2"⟩], none, [[[⟨1, false, "v1"⟩]]]⟩ = some "v2" := by
  have h1 := claim_C1_get_snapshot_read 1 2 [] (fun _ => false)
    ⟨[⟨2, false, "v2"⟩], none, [[[⟨1, false, "v1"⟩]]]⟩ rfl
    (by constructor
        · intro b hb
          simp only [allEntries] at hb
          simp at hb
          subst hb
          decide
        · simp [allEntries])
  have h2 := claim_C1_get_snapshot_read 2 2 [] (fun _ => false)
    ⟨[⟨2, false, "v2"⟩], none, [[[⟨1, false, "v1"⟩]]]⟩ rfl
    (by constructor
        · intro b hb
          simp only [allEntries] at hb
          simp at hb
          subst hb
          decide
        · simp [allEntries])
  have h3 := claim_C1_get_snapshot_read kMaxSequenceNumber 2 [] (fun _ => false)
    ⟨[⟨2, false, "v2"⟩], none, [[[⟨1, false, "v1"⟩]]]⟩ rfl
    (by constructor
        · intro b hb
          simp only [allEntries] at hb
          simp at hb
          subst hb
          decide
        · simp [allEntries])
  refine ⟨h1.trans ?_, h2.trans ?_, h3.trans ?_⟩ <;> rfl

/-! ## C7 — `BlockCacheRandomAccessFile::Read` (`block_cache.cc`, lines 746-969)

A range read `[offset, offset + n)` is split into cache blocks, each
classified `valid` (in cache, not locked → SSD read), `miss` (not in
cache, not locked → DFS read then cache fill) or `locked` (in flight
elsewhere → wait, contributing no status).  The request status `s` picks
up the first non-OK per-block status, in code order: the valid blocks'
cache reads (lines 832-846), the miss blocks' DFS reads (lines 851-863),
the miss blocks' cache fills (lines 880-895).  The user buffer is
assembled from the in-memory block data with the first block's prefix and
the last block's suffix trimmed (lines 913-935); if `s` is non-OK the
whole request degrades to one direct DFS read whose status is returned
(lines 957-962). -/

/-- The classification of one cache block at queueing time
(lines 778-787). -/
inductive BlockClass where
  | valid : BlockClass
  | miss : BlockClass
  | locked : BlockClass
deriving DecidableEq, Repr

/-- One cache block touched by the request, with the statuses its steps
ended with (`block->s` after `HandleCacheRead`, `HandleDfsRead`, and
`HandleCacheWrite` = `LogRecord` + `FillCache`, respectively) and its
in-memory data after the waits. -/
structure PBlock where
  cls : BlockClass
  cacheReadStatus : Status
  dfsReadStatus : Status
  fillStatus : Status
  data : List Char
deriving Repr

/-- `if (!block->s.ok() && s.ok()) s = block->s;` — the accumulation that
keeps the first error. -/
def pickErr (s bs : Status) : Status :=
  if !bs.isOk && s.isOk then bs else s

/-- The request status after the three wait loops, in code order. -/
def readWaitStatus (blocks : List PBlock) : Status :=
  ((blocks.filter (fun b => decide (b.cls = BlockClass.miss))).foldl
    (fun s b => pickErr s b.fillStatus)
    ((blocks.filter (fun b => decide (b.cls = BlockClass.miss))).foldl
      (fun s b => pickErr s b.dfsReadStatus)
      ((blocks.filter (fun b => decide (b.cls = BlockClass.valid))).foldl
        (fun s b => pickErr s b.cacheReadStatus) Status.ok)))

/-- The per-block trimming of lines 917-922: the first block loses
`offset % block_size` from the front, the last block loses
`block_size - (offset + n) % block_size` from the back. -/
def trimBlock (blockSize offset n beginIdx endIdx idx : Nat) (data : List Char) :
    List Char :=
  let d1 := if idx = beginIdx then data.drop (offset % blockSize) else data
  if idx = endIdx then d1.take (d1.length - (blockSize - (offset + n) % blockSize)) else d1

/-- Assembling the user buffer from the in-memory block data
(lines 913-935); `datas` lists the blocks' data in index order
`begin..end`. -/
def assembleBuffer (blockSize offset n : Nat) (datas : List (List Char)) : List Char :=
  (List.zipWith
    (fun i d => trimBlock blockSize offset n (offset / blockSize)
      ((offset + n) / blockSize) (offset / blockSize + i) d)
    (List.range datas.length) datas).flatten

/-- `BlockCacheRandomAccessFile::Read`: assemble from the block data and
return OK, unless any per-block step failed, in which case the result of
the single direct DFS read `directRead` of `[offset, offset + n)` is
returned. -/
def blockCacheFileRead (blockSize offset n : Nat) (blocks : List PBlock)
    (directRead : Status × List Char) : Status × List Char :=
  let s := readWaitStatus blocks
  let assembled := assembleBuffer blockSize offset n (blocks.map PBlock.data)
  if s.isOk then (s, assembled) else directRead

/-- Whether one of the block's steps (SSD cache read for a valid block,
DFS read or cache fill for a miss block) ended non-OK. -/
def blockStepFailed (b : PBlock) : Bool :=
  match b.cls with
  | .valid => !b.cacheReadStatus.isOk
  | .miss => !b.dfsReadStatus.isOk || !b.fillStatus.isOk
  | .locked => false

theorem pickErr_fold_isOk (f : PBlock → Status) :
    ∀ (l : List PBlock) (s : Status),
      ((l.foldl (fun acc b => pickErr acc (f b)) s).isOk = true ↔
        (s.isOk = true ∧ ∀ b ∈ l, (f b).isOk = true)) := by
  intro l
  induction l with
  | nil => intro s; simp
  | cons b rest ih =>
    intro s
    rw [List.foldl_cons, ih]
    by_cases hs : s.isOk = true
    · by_cases hb : (f b).isOk = true
      · have : pickErr s (f b) = s := by
          simp [pickErr, hb]
        rw [this]
        simp only [hs, true_and, List.mem_cons]
        constructor
        · intro h b2 hb2
          rcases hb2 with rfl | hb2
          · exact hb
          · exact h b2 hb2
        · intro h b2 hb2
          exact h b2 (Or.inr hb2)
      · have hpe : pickErr s (f b) = f b := by
          simp [pickErr, Bool.eq_false_iff.mpr hb, hs]
        rw [hpe]
        constructor
        · intro hcontra
          exact absurd hcontra.1 hb
        · rintro ⟨_, hall⟩
          exact absurd (hall b (List.mem_cons_self b rest)) hb
    · have : pickErr s (f b) = s := by
        simp [pickErr, Bool.eq_false_iff.mpr hs]
      rw [this]
      simp only [hs, false_and]
      tauto

/-- The request status is OK exactly when no step of any block failed. -/
theorem readWaitStatus_isOk (blocks : List PBlock) :
    (readWaitStatus blocks).isOk = true ↔
      ∀ b ∈ blocks, blockStepFailed b = false := by
  simp only [readWaitStatus]
  rw [pickErr_fold_isOk, pickErr_fold_isOk, pickErr_fold_isOk]
  constructor
  · rintro ⟨⟨⟨_, hcache⟩, hdfs⟩, hfill⟩ b hb
    cases hcls : b.cls with
    | valid =>
      have := hcache b (List.mem_filter.mpr ⟨hb, by simp [hcls]⟩)
      simp [blockStepFailed, hcls, this]
    | miss =>
      have h1 := hdfs b (List.mem_filter.mpr ⟨hb, by simp [hcls]⟩)
      have h2 := hfill b (List.mem_filter.mpr ⟨hb, by simp [hcls]⟩)
      simp [blockStepFailed, hcls, h1, h2]
    | locked =>
      simp [blockStepFailed, hcls]
  · intro h
    refine ⟨⟨⟨rfl, ?_⟩, ?_⟩, ?_⟩
    · intro b hb
      rcases List.mem_filter.mp hb with ⟨hb1, hb2⟩
      have hcls : b.cls = BlockClass.valid := by simpa using hb2
      have := h b hb1
      simp only [blockStepFailed, hcls] at this
      simpa using this
    · intro b hb
      rcases List.mem_filter.mp hb with ⟨hb1, hb2⟩
      have hcls : b.cls = BlockClass.miss := by simpa using hb2
      have := h b hb1
      simp only [blockStepFailed, hcls] at this
      rcases Bool.or_eq_false_iff.mp this with ⟨h1, _⟩
      simpa using h1
    · intro b hb
      rcases List.mem_filter.mp hb with ⟨hb1, hb2⟩
      have hcls : b.cls = BlockClass.miss := by simpa using hb2
      have := h b hb1
      simp only [blockStepFailed, hcls] at this
      rcases Bool.or_eq_false_iff.mp this with ⟨_, h2⟩
      simpa using h2

/-- C7: if every per-block step (SSD cache read, DFS read of a miss,
cache fill) ends OK, the read returns OK with the user buffer assembled
from the in-memory block data; if any step ends non-OK for some block,
the whole request degrades to the single direct DFS read of
`[offset, offset + n)` and that read's outcome is returned. -/
theorem claim_C7_block_cache_read_degrade (blockSize offset n : Nat)
    (blocks : List PBlock) (directRead : Status × List Char) :
    ((∀ b ∈ blocks, blockStepFailed b = false) →
      blockCacheFileRead blockSize offset n blocks directRead =
        (Status.ok, assembleBuffer blockSize offset n (blocks.map PBlock.data))) ∧
    ((∃ b ∈ blocks, blockStepFailed b = true) →
      blockCacheFileRead blockSize offset n blocks directRead = directRead) := by
  constructor
  · intro h
    have hok : (readWaitStatus blocks).isOk = true := (readWaitStatus_isOk blocks).mpr h
    have hsok : readWaitStatus blocks = Status.ok := by
      cases hst : readWaitStatus blocks <;> simp_all [Status.isOk]
    simp only [blockCacheFileRead, hsok]
    rfl
  · rintro ⟨b, hb, hfail⟩
    have hnok : ¬((readWaitStatus blocks).isOk = true) := by
      intro hok
      have := (readWaitStatus_isOk blocks).mp hok b hb
      rw [hfail] at this
      cases this
    simp only [blockCacheFileRead]
    rw [if_neg hnok]

/-- Concrete instantiation of `claim_C7_block_cache_read_degrade`: a
two-block read (one valid, one miss with all steps OK) succeeds with the
assembled buffer; the same read with the miss block's cache fill failing
degrades to the direct DFS read. -/
theorem claim_C7_block_cache_read_degrade_witness :
    blockCacheFileRead 4 2 6 [⟨.valid, .ok, .ok, .ok, ['a', 'b', 'c', 'd']⟩,
        ⟨.miss, .ok, .ok, .ok, ['e', 'f', 'g', 'h']⟩] (Status.ioError, []) =
      (Status.ok, ['c', 'd', 'e', 'f', 'g', 'h']) ∧
    blockCacheFileRead 4 2 6 [⟨.valid, .ok, .ok, .ok, ['a', 'b', 'c', 'd']⟩,
        ⟨.miss, .ok, .ok, .ioError, ['e', 'f', 'g', 'h']⟩] (Status.ioError, []) =
      (Status.ioError, []) := by
  have h1 := (claim_C7_block_cache_read_degrade 4 2 6
    [⟨.valid, .ok, .ok, .ok, ['a', 'b', 'c', 'd']⟩,
      ⟨.miss, .ok, .ok, .ok, ['e', 'f', 'g', 'h']⟩] (Status.ioError, [])).1
    (by decide)
  have h2 := (claim_C7_block_cache_read_degrade 4 2 6
    [⟨.valid, .ok, .ok, .ok, ['a', 'b', 'c', 'd']⟩,
      ⟨.miss, .ok, .ok, .ioError, ['e', 'f', 'g', 'h']⟩] (Status.ioError, [])).2
    ⟨⟨.miss, .ok, .ok, .ioError, ['e', 'f', 'g', 'h']⟩, by simp, by decide⟩
  refine ⟨h1.trans ?_, h2⟩
  rfl

end Tera
